import Mathlib

/-!
Shallow embedding of the "Just One More" contribution ledger (the in-file
localStorage-backed store and its mutators, the meal lifecycle handlers,
the bulk-identifier generator and the lighthouse ranking) together with
proofs about the behaviour of those operations.

Conventions of the embedding:
* JS objects become Lean structures; fields that call sites may omit
  (`undefined` in JS) are `Option`s.
* JS object spread-merge `{...old, ...patch}` becomes a field-wise
  `Option.orElse` merge (`mergeMeal`): a field present in the patch wins,
  an absent one keeps the old value.
* Timestamps (`nowISO()`) and generated ids (`uid()`) are nondeterministic
  inputs of the program; they are passed as explicit string parameters.
* `Contributor.points`/`mealsContributed` are natural numbers; the JS
  guards `(x || 0)` are identities under that typing.
* The floating-point haversine distance is abstracted as an arbitrary
  rational-valued distance function parameter; the ranking claims are about
  ordering and stability, not about trigonometric values.
-/

namespace JustOneMore

/-- Meal lifecycle status; the strings "logged" | "at_lighthouse" |
"distributed" in the source. -/
inductive Status where
  | logged
  | at_lighthouse
  | distributed
deriving DecidableEq

/-- The `contains` record of a meal: the seven allergen flags. -/
structure Allergens where
  treeNuts : Bool
  eggs : Bool
  peanuts : Bool
  shellfish : Bool
  dairy : Bool
  wheat : Bool
  soy : Bool
deriving DecidableEq

/-- A contributor record, as created by `Onboarding`'s `onComplete`. -/
structure Contributor where
  id : String
  name : String
  phone : Option String
  email : Option String
  address : Option String
  lat : Option ℚ
  lng : Option ℚ
  createdAt : String
  points : Nat
  mealsContributed : Nat
deriving DecidableEq

/-- A meal record.  Every field that some call site of `upsertMeal` omits is
an `Option`; `upsertMeal` both inserts these objects verbatim and merges
them into existing records, so the record and the patch share this type. -/
structure Meal where
  id : String
  contributorId : Option String
  preparedDate : Option String
  description : Option String
  mealType : Option String
  contains : Option Allergens
  method : Option String
  lighthouseId : Option String
  status : Option Status
  recipientName : Option String
  distributedAt : Option String
deriving DecidableEq

/-- A lighthouse (facility) record, as in `SEED_LIGHTHOUSES`. -/
structure Lighthouse where
  id : String
  name : String
  lat : ℚ
  lng : ℚ
  radiusKm : ℚ
  dropPoints : List String
deriving DecidableEq

/-- A notification record (`{ id, ts, contributorId, message }`). -/
structure Notification where
  id : String
  ts : String
  contributorId : String
  message : String
deriving DecidableEq

/-- The store snapshot (the `db` object of `useDB`). -/
structure DB where
  contributors : List Contributor
  lighthouses : List Lighthouse
  meals : List Meal
  notifications : List Notification
deriving DecidableEq

/-- The seeded lighthouse list (`SEED_LIGHTHOUSES`). -/
def SEED_LIGHTHOUSES : List Lighthouse :=
  [ ⟨"lh_cpt", "Cape Town Lighthouse", -(339249/10000 : ℚ), 184241/10000, 15,
      ["Sea Point", "Claremont"]⟩,
    ⟨"lh_jhb", "Johannesburg Lighthouse", -(262041/10000 : ℚ), 280473/10000, 20,
      ["Rosebank", "Sandton"]⟩,
    ⟨"lh_dbn", "Durban Lighthouse", -(298587/10000 : ℚ), 310218/10000, 15,
      ["Umhlanga", "Glenwood"]⟩,
    ⟨"lh_pta", "Pretoria Lighthouse", -(257479/10000 : ℚ), 282293/10000, 20,
      ["Hatfield", "Menlyn"]⟩ ]

/-- The initial snapshot: empty collections plus the seeded lighthouses.
`reset` also produces exactly this state. -/
def dbInit : DB := ⟨[], SEED_LIGHTHOUSES, [], []⟩

/-- `addContributor(c)`: appends `c` to the contributors collection. -/
def addContributor (d : DB) (c : Contributor) : DB :=
  { d with contributors := d.contributors ++ [c] }

/-- The patch argument of `updateContributor`: an arbitrary partial
Contributor object, spread-merged over the existing record — any field,
the id included, may be carried and then overrides.  A field whose record
type is already an `Option` is patched with an `Option (Option _)`:
`none` means the key is absent from the patch. -/
structure CtrPatch where
  id : Option String
  name : Option String
  phone : Option (Option String)
  email : Option (Option String)
  address : Option (Option String)
  lat : Option (Option ℚ)
  lng : Option (Option ℚ)
  createdAt : Option String
  points : Option Nat
  mealsContributed : Option Nat
deriving DecidableEq

/-- Spread-merge of a contributor patch (`{ ...c, ...patch }`). -/
def patchContributor (c : Contributor) (p : CtrPatch) : Contributor :=
  ⟨p.id.getD c.id,
    p.name.getD c.name,
    p.phone.getD c.phone,
    p.email.getD c.email,
    p.address.getD c.address,
    p.lat.getD c.lat,
    p.lng.getD c.lng,
    p.createdAt.getD c.createdAt,
    p.points.getD c.points,
    p.mealsContributed.getD c.mealsContributed⟩

/-- `updateContributor(id, patch)`: merges the patch into every contributor
whose id matches (`contributors.map(c => c.id === id ? {...c, ...patch} : c)`). -/
def updateContributor (d : DB) (id : String) (p : CtrPatch) : DB :=
  { d with
      contributors :=
        d.contributors.map (fun c => if c.id = id then patchContributor c p else c) }

/-- Spread-merge of a meal patch (`{ ...old, ...patch }`): a field carried
by the patch overrides, an absent one keeps the old value.  `id` is present
in the patch at every call site. -/
def mergeMeal (old patch : Meal) : Meal :=
  ⟨patch.id,
    patch.contributorId.orElse (fun _ => old.contributorId),
    patch.preparedDate.orElse (fun _ => old.preparedDate),
    patch.description.orElse (fun _ => old.description),
    patch.mealType.orElse (fun _ => old.mealType),
    patch.contains.orElse (fun _ => old.contains),
    patch.method.orElse (fun _ => old.method),
    patch.lighthouseId.orElse (fun _ => old.lighthouseId),
    patch.status.orElse (fun _ => old.status),
    patch.recipientName.orElse (fun _ => old.recipientName),
    patch.distributedAt.orElse (fun _ => old.distributedAt)⟩

/-- `upsertMeal`'s list update: `findIndex` + replace-in-place when the id
exists, append otherwise. -/
def upsertList : List Meal → Meal → List Meal
  | [], meal => [meal]
  | m :: rest, meal =>
      if m.id = meal.id then mergeMeal m meal :: rest else m :: upsertList rest meal

/-- `upsertMeal(meal)`: merge into the first record with the same id, or
append when no record has that id. -/
def upsertMeal (d : DB) (meal : Meal) : DB :=
  { d with meals := upsertList d.meals meal }

/-- `addNotification(n)`: `notifications: [n, ...d.notifications].slice(0, 100)`. -/
def addNotification (d : DB) (n : Notification) : DB :=
  { d with notifications := (n :: d.notifications).take 100 }

/-- A meal patch `{ id, status }` as passed by `handleReceive`. -/
def mealStatusPatch (id : String) (st : Status) : Meal :=
  ⟨id, none, none, none, none, none, none, none, some st, none, none⟩

/-- `handleReceive(id)`: `api.upsertMeal({ id, status: "at_lighthouse" })`. -/
def handleReceive (d : DB) (id : String) : DB :=
  upsertMeal d (mealStatusPatch id .at_lighthouse)

/-- The recipient-name placeholder recorded when no recipient is given
(`recipient || "—"`; the empty string is falsy in JS). -/
def recipientPlaceholder : String := "—"

/-- The meal patch issued by `handleDistribute`:
`{ id, status: "distributed", distributedAt: nowISO(), recipientName: recipient || "—" }`. -/
def distributePatch (id recipient now : String) : Meal :=
  ⟨id, none, none, none, none, none, none, none, some .distributed,
    some (if recipient = "" then recipientPlaceholder else recipient), some now⟩

/-- The milestone threshold list `[1, 5, 10, 25, 50]`. -/
def MILESTONES : List Nat := [1, 5, 10, 25, 50]

/-- The contributor patch `{ points: newPoints, mealsContributed: newMeals }`
passed by `handleDistribute`'s call to `updateContributor`. -/
def scorePatch (pts meals : Nat) : CtrPatch :=
  ⟨none, none, none, none, none, none, none, none, some pts, some meals⟩

/-- Little-endian decimal digits of a natural number (the digits of JS
`String(n)` in reverse). -/
def toDigitsRev (n : Nat) : List Nat :=
  if n < 10 then [n]
  else (n % 10) :: toDigitsRev (n / 10)
decreasing_by exact Nat.div_lt_self (by omega) (by omega)

/-- The character of one decimal digit. -/
def digitChar (d : Nat) : Char := Char.ofNat (48 + d)

/-- Decimal rendering of a natural number — JS `String(n)` for `n ≥ 0`. -/
def natRepr (n : Nat) : String :=
  String.mk (((toDigitsRev n).reverse).map digitChar)

/-- The JS WhiteSpace / LineTerminator set stripped by `String.prototype.trim`:
TAB LF VT FF CR SP NBSP OGHAM, the Zs range U+2000..U+200A, LS PS NNBSP MMSP
IDSP and ZWNBSP. -/
def isJsWhitespace (c : Char) : Bool :=
  let n := c.toNat
  n == 9 || n == 10 || n == 11 || n == 12 || n == 13 || n == 32 ||
  n == 160 || n == 5760 || decide (8192 ≤ n ∧ n ≤ 8202) || n == 8232 ||
  n == 8233 || n == 8239 || n == 8287 || n == 12288 || n == 65279

/-- JS `base.trim()`: strip leading and trailing whitespace.  (Embedded
structurally so that it evaluates; core's `String.trim` is defined by
well-founded recursion.) -/
def trimString (s : String) : String :=
  String.mk ((s.data.dropWhile isJsWhitespace).reverse.dropWhile isJsWhitespace).reverse

/-- JS `s.padStart(2, "0")`: left-pad with zeros to length at least 2. -/
def padStart2 (s : String) : String :=
  if s.length < 2 then String.mk (List.replicate (2 - s.length) '0') ++ s else s

/-- `generateBulkIds(base, quantity)`: trim the base, reject an empty base,
clamp the quantity to at least 1, return the bare trimmed base for a single
meal and `base-NN` (1-based, zero-padded to 2 digits) otherwise. -/
def generateBulkIds (base : String) (quantity : Int) : List String :=
  let trimmed := trimString base
  if trimmed = "" then []
  else
    let q : Nat := (max 1 quantity).toNat
    if q = 1 then [trimmed]
    else (List.range q).map (fun i => trimmed ++ "-" ++ padStart2 (natRepr (i + 1)))

/-- The thank-you notification message of `handleDistribute`. -/
def thanksMsg (id : String) : String :=
  "Your meal " ++ id ++ " has been delivered. Thank you!"

/-- The milestone notification message of `handleDistribute`. -/
def milestoneMsg (n : Nat) : String :=
  "🎉 Milestone: " ++ natRepr n ++ " meal" ++ (if n > 1 then "s" else "") ++ " delivered!"

/-- `handleDistribute(id)` with recipient `recip`: look the meal up in the
current snapshot; if absent, do nothing.  Otherwise stamp the meal
distributed, and — when the meal's `contributorId` finds a contributor —
award 10 points and one meal, patch the contributor, push the thank-you
notification and, when the new meal count is exactly a milestone, the
milestone notification.  `now` stands for the `nowISO()` timestamps and
`n1`, `n2` for the generated notification ids. -/
def handleDistribute (d : DB) (id recip now n1 n2 : String) : DB :=
  match d.meals.find? (fun m => m.id == id) with
  | none => d
  | some meal =>
    let d1 := upsertMeal d (distributePatch id recip now)
    match d.contributors.find? (fun c => some c.id == meal.contributorId) with
    | none => d1
    | some ctr =>
      let newPoints := ctr.points + 10
      let newMeals := ctr.mealsContributed + 1
      let milestone := MILESTONES.find? (fun m => newMeals == m)
      let d2 := updateContributor d1 ctr.id (scorePatch newPoints newMeals)
      let d3 := addNotification d2 ⟨n1, now, ctr.id, thanksMsg id⟩
      match milestone with
      | some ms => addNotification d3 ⟨n2, now, ctr.id, milestoneMsg ms⟩
      | none => d3

/-- A latitude/longitude pair. -/
structure Coord where
  lat : ℚ
  lng : ℚ
deriving DecidableEq

/-- A lighthouse enriched with its computed distance (`{ ...lh, dist }`);
`dist` is `null` when no user coordinate is available. -/
structure RankedLighthouse where
  lh : Lighthouse
  dist : Option ℚ
deriving DecidableEq

/-- The sort key of the comparator `(a.dist ?? Infinity) - (b.dist ?? Infinity)`:
a missing distance compares as positive infinity. -/
def distKey : Option ℚ → WithTop ℚ
  | none => ⊤
  | some x => (x : WithTop ℚ)

/-- The ascending-distance order used by `LighthouseFinder`'s sort. -/
def leByDist (a b : RankedLighthouse) : Prop := distKey a.dist ≤ distKey b.dist

instance : DecidableRel leByDist := fun a b =>
  inferInstanceAs (Decidable (distKey a.dist ≤ distKey b.dist))

instance : IsTotal RankedLighthouse leByDist := ⟨fun _ _ => le_total _ _⟩

instance : IsTrans RankedLighthouse leByDist := ⟨fun _ _ _ => le_trans⟩

/-- The `enriched` list of `LighthouseFinder`: each lighthouse paired with
its distance from the user's coordinate, when one is given.  The
floating-point `haversineKm` is abstracted as the parameter `dist`. -/
def enrich (dist : Coord → Coord → ℚ) (lhs : List Lighthouse)
    (userCoords : Option Coord) : List RankedLighthouse :=
  lhs.map (fun lh => ⟨lh, userCoords.map (fun uc => dist uc ⟨lh.lat, lh.lng⟩)⟩)

/-- `LighthouseFinder`'s ranking: enrich with distances, then sort ascending
by distance.  `Array.prototype.sort` is specified to be stable, and the
numeric comparator is a total preorder, so the sort is embedded as a stable
insertion sort over `leByDist`. -/
def rankLighthouses (dist : Coord → Coord → ℚ) (lhs : List Lighthouse)
    (userCoords : Option Coord) : List RankedLighthouse :=
  (enrich dist lhs userCoords).insertionSort leByDist

/-- The store-wide referential invariant of the specification: every meal's
`contributorId` names an existing contributor and every meal's
`lighthouseId` names an existing lighthouse. -/
def refOK (d : DB) : Prop :=
  ∀ m ∈ d.meals,
    (∃ c ∈ d.contributors, m.contributorId = some c.id) ∧
    (∃ lh ∈ d.lighthouses, m.lighthouseId = some lh.id)

instance (d : DB) : Decidable (refOK d) := by
  unfold refOK; infer_instance

/-- One application of an exposed store mutator, with arbitrary arguments. -/
inductive Step : DB → DB → Prop where
  | reset (d : DB) : Step d dbInit
  | addContributor (d : DB) (c : Contributor) : Step d (addContributor d c)
  | updateContributor (d : DB) (id : String) (p : CtrPatch) :
      Step d (updateContributor d id p)
  | upsertMeal (d : DB) (m : Meal) : Step d (upsertMeal d m)
  | receive (d : DB) (id : String) : Step d (handleReceive d id)
  | distribute (d : DB) (id recip now n1 n2 : String) :
      Step d (handleDistribute d id recip now n1 n2)
  | addNotification (d : DB) (n : Notification) : Step d (addNotification d n)

/-- Store states reachable from the initial snapshot through the exposed
mutators. -/
inductive Reachable : DB → Prop where
  | init : Reachable dbInit
  | step {d d' : DB} : Reachable d → Step d d' → Reachable d'

/-- A guarded mutator application: like `Step`, but `upsertMeal` may only
carry references that resolve in the current state (and must carry both on
an insert), `receive` may only target an existing meal id, and
`updateContributor`'s patch may not carry an id (may not rename the
contributor).  These are exactly the side conditions under which the
mutators preserve `refOK`. -/
inductive GStep : DB → DB → Prop where
  | reset (d : DB) : GStep d dbInit
  | addContributor (d : DB) (c : Contributor) : GStep d (addContributor d c)
  | updateContributor (d : DB) (id : String) (p : CtrPatch) (hid : p.id = none) :
      GStep d (updateContributor d id p)
  | upsertMeal (d : DB) (m : Meal)
      (hc : ∀ cid, m.contributorId = some cid → ∃ c ∈ d.contributors, c.id = cid)
      (hl : ∀ lid, m.lighthouseId = some lid → ∃ lh ∈ d.lighthouses, lh.id = lid)
      (hins : (∀ m0 ∈ d.meals, m0.id ≠ m.id) →
        m.contributorId.isSome ∧ m.lighthouseId.isSome) :
      GStep d (upsertMeal d m)
  | receive (d : DB) (id : String) (h : ∃ m ∈ d.meals, m.id = id) :
      GStep d (handleReceive d id)
  | distribute (d : DB) (id recip now n1 n2 : String) :
      GStep d (handleDistribute d id recip now n1 n2)
  | addNotification (d : DB) (n : Notification) : GStep d (addNotification d n)

/-! Concrete fixtures used by counterexamples and witnesses. -/

/-- A contributor with fresh counters. -/
def ctr0 : Contributor := ⟨"c1", "Alice", none, none, none, none, none, "t0", 0, 0⟩

/-- A logged meal owned by `ctr0`, assigned to the seeded Cape Town
lighthouse. -/
def meal0 : Meal :=
  ⟨"m1", some "c1", some "2024-01-01", some "chicken soup", some "vegetarian",
    some ⟨false, false, false, false, false, false, false⟩, some "dropoff",
    some "lh_cpt", some .logged, none, none⟩

/-- A small store: one contributor, the seeded lighthouses, one logged meal. -/
def db1 : DB := ⟨[ctr0], SEED_LIGHTHOUSES, [meal0], []⟩

/-- A meal whose `contributorId` resolves to no contributor. -/
def ghostMeal : Meal :=
  ⟨"m9", some "ghost", some "2024-01-01", some "stew", some "beef",
    some ⟨false, false, false, false, false, false, false⟩, some "dropoff",
    some "lh_cpt", some .logged, none, none⟩

/-- `db1` with `meal0` already distributed once (first `handleDistribute`). -/
def db1d : DB := handleDistribute db1 "m1" "Jane" "t1" "na" "nb"

/-- `db1d` after a second `handleDistribute` of the same meal. -/
def db1dd : DB := handleDistribute db1d "m1" "Jane" "t2" "nc" "nd"

/-- A store holding a single already-distributed meal. -/
def dbDist : DB :=
  ⟨[ctr0], SEED_LIGHTHOUSES,
    [{ meal0 with
        status := some .distributed
        distributedAt := some "t1"
        recipientName := some "Jane" }], []⟩

/-- Value of a little-endian decimal digit list. -/
def decodeRevDigits : List Nat → Nat
  | [] => 0
  | d :: rest => d + 10 * decodeRevDigits rest

/-- Value of a big-endian string of decimal digit characters; insensitive to
leading zeros. -/
def decodeDigits (cs : List Char) : Nat :=
  cs.foldl (fun a c => a * 10 + (c.toNat - 48)) 0

/-! ## Theorems -/

theorem take_hundred_collapse {α : Type} (a : α) (l : List α) :
    (a :: l.take 100).take 100 = (a :: l).take 100 := by
  simp [List.take_succ_cons, List.take_take]

/-- C9: `addNotification` prepends the new notification and keeps only the
most recent 100 entries: the new entry is the head, the log never exceeds
100 entries, and what is dropped is exactly a suffix — the oldest entries
(the log is newest-first). -/
theorem addNotification_spec (d : DB) (n : Notification) :
    (addNotification d n).notifications.head? = some n ∧
    (addNotification d n).notifications.length ≤ 100 ∧
    n :: d.notifications =
      (addNotification d n).notifications ++ (n :: d.notifications).drop 100 := by
  refine ⟨?_, ?_, ?_⟩
  · simp [addNotification, List.take_succ_cons]
  · simp [addNotification]
  · simp [addNotification, List.take_append_drop]

/-- Counterexample to C6 as stated: adding a contributor whose id already
exists does not fail and does not leave the store unchanged — the new record
is appended, so the store now holds two contributors with id "c1". -/
theorem addContributor_allows_duplicate :
    (addContributor db1 ⟨"c1", "Bob", none, none, none, none, none, "t9", 0, 0⟩).contributors
      = [ctr0, ⟨"c1", "Bob", none, none, none, none, none, "t9", 0, 0⟩] ∧
    ctr0.id = "c1" := by
  exact ⟨rfl, rfl⟩

/-- C6 (amended): `addContributor(c)` appends unconditionally; there is no
duplicate-identity check, so when a contributor with `c.id` already exists
the collection still grows by one and afterwards holds at least two
contributors with that id. -/
theorem addContributor_spec (d : DB) (c : Contributor)
    (h : ∃ c0 ∈ d.contributors, c0.id = c.id) :
    (addContributor d c).contributors.length = d.contributors.length + 1 ∧
    2 ≤ (addContributor d c).contributors.countP (fun x => x.id == c.id) := by
  constructor
  · simp [addContributor]
  · obtain ⟨c0, hc0, hid⟩ := h
    have h1 : 0 < d.contributors.countP (fun x => x.id == c.id) :=
      List.countP_pos_iff.mpr ⟨c0, hc0, by simp [hid]⟩
    have h2 : List.countP (fun x => x.id == c.id) [c] = 1 := by simp
    simp only [addContributor, List.countP_append, h2]
    omega

theorem addContributor_spec_witness :
    (addContributor db1 ⟨"c1", "Bob", none, none, none, none, none, "t9", 0, 0⟩).contributors.length
      = db1.contributors.length + 1 ∧
    2 ≤ (addContributor db1
          ⟨"c1", "Bob", none, none, none, none, none, "t9", 0, 0⟩).contributors.countP
        (fun x => x.id == "c1") :=
  addContributor_spec db1 ⟨"c1", "Bob", none, none, none, none, none, "t9", 0, 0⟩
    (by exact ⟨ctr0, by simp [db1], rfl⟩)

theorem upsertList_append {l : List Meal} {p : Meal} (h : ∀ m ∈ l, m.id ≠ p.id) :
    upsertList l p = l ++ [p] := by
  induction l with
  | nil => rfl
  | cons m rest ih =>
      have hm : m.id ≠ p.id := h m (by simp)
      simp [upsertList, hm]
      exact ih (fun x hx => h x (by simp [hx]))

theorem mergeMeal_id (m p : Meal) : (mergeMeal m p).id = p.id := rfl

theorem find?_upsertList {l : List Meal} {p m : Meal}
    (h : l.find? (fun x => x.id == p.id) = some m) :
    (upsertList l p).find? (fun x => x.id == p.id) = some (mergeMeal m p) := by
  induction l with
  | nil => simp [List.find?] at h
  | cons x rest ih =>
      by_cases hx : x.id = p.id
      · have hbeq : (x.id == p.id) = true := by simp [hx]
        have hxm : x = m := by
          simpa [List.find?, hbeq] using h
        subst hxm
        simp [upsertList, hx, List.find?, mergeMeal_id]
      · have hbeq : (x.id == p.id) = false := by simp [hx]
        have h' : rest.find? (fun y => y.id == p.id) = some m := by
          simpa [List.find?, hbeq] using h
        simp [upsertList, hx, List.find?, hbeq]
        exact ih h'

theorem upsertList_eq_self {l : List Meal} {p m : Meal}
    (h : l.find? (fun x => x.id == p.id) = some m) (hmerge : mergeMeal m p = m) :
    upsertList l p = l := by
  induction l with
  | nil => simp [List.find?] at h
  | cons x rest ih =>
      by_cases hx : x.id = p.id
      · have hbeq : (x.id == p.id) = true := by simp [hx]
        have hxm : x = m := by simpa [List.find?, hbeq] using h
        subst hxm
        simp [upsertList, hx, hmerge]
      · have hbeq : (x.id == p.id) = false := by simp [hx]
        have h' : rest.find? (fun y => y.id == p.id) = some m := by
          simpa [List.find?, hbeq] using h
        simp [upsertList, hx]
        exact ih h'

/-- Counterexample to C5 as stated: inserting a meal whose `contributorId`
resolves to no contributor succeeds — there is no `InvalidReference`
failure; the meal is simply appended to the store. -/
theorem upsertMeal_inserts_dangling :
    (upsertMeal dbInit ghostMeal).meals = [ghostMeal] ∧
    dbInit.contributors = [] ∧ ghostMeal.contributorId = some "ghost" := by
  exact ⟨rfl, rfl, rfl⟩

/-- C5 (amended): `upsertMeal(meal)` never fails.  When no record has
`meal.id` the meal is appended verbatim — with no validation of
`contributorId` or `lighthouseId` whatsoever; when a record with `meal.id`
exists, the given fields are merged into the (first) existing record. -/
theorem upsertMeal_spec (d : DB) (meal : Meal) :
    ((∀ m ∈ d.meals, m.id ≠ meal.id) → (upsertMeal d meal).meals = d.meals ++ [meal]) ∧
    (∀ m0, d.meals.find? (fun x => x.id == meal.id) = some m0 →
      (upsertMeal d meal).meals.find? (fun x => x.id == meal.id)
        = some (mergeMeal m0 meal)) := by
  constructor
  · intro h
    simp [upsertMeal, upsertList_append h]
  · intro m0 h
    simpa [upsertMeal] using find?_upsertList h

theorem upsertMeal_spec_witness :
    (upsertMeal db1 meal0).meals.find? (fun x => x.id == meal0.id)
      = some (mergeMeal meal0 meal0) :=
  (upsertMeal_spec db1 meal0).2 meal0 (by rfl)

theorem find?_meal_id {l : List Meal} {id : String} {m : Meal}
    (h : l.find? (fun x => x.id == id) = some m) : m.id = id := by
  have := List.find?_some h
  simpa using this

theorem mergeMeal_statusPatch {m : Meal} {id : String} {st : Status}
    (hid : m.id = id) :
    mergeMeal m (mealStatusPatch id st) = { m with status := some st } := by
  cases m
  simp_all [mergeMeal, mealStatusPatch, Option.orElse]

/-- Counterexample to C4 as stated: `receive` on an already-`distributed`
meal is not a no-op — it moves the meal's status back to `at_lighthouse`,
changing the record. -/
theorem receive_resets_distributed :
    (handleReceive dbDist "m1").meals.map (fun m => m.status)
      = [some .at_lighthouse] ∧
    dbDist.meals.map (fun m => m.status) = [some .distributed] ∧
    handleReceive dbDist "m1" ≠ dbDist := by
  refine ⟨rfl, rfl, fun h => ?_⟩
  have h2 : ([some Status.at_lighthouse] : List (Option Status))
      = [some Status.distributed] := by
    calc ([some Status.at_lighthouse] : List (Option Status))
        = (handleReceive dbDist "m1").meals.map (fun m => m.status) := rfl
      _ = dbDist.meals.map (fun m => m.status) := by rw [h]
      _ = [some Status.distributed] := rfl
  simp at h2

/-- C4 (amended): when a meal with `mealId` exists, `receive` sets its
status to `at_lighthouse` whatever the current status is: a `logged` meal
transitions to `at_lighthouse`, re-receiving an `at_lighthouse` meal is a
silent no-op leaving the store unchanged, but a `distributed` meal is moved
back to `at_lighthouse` (only the status field changes). -/
theorem receive_spec (d : DB) (id : String) (m : Meal)
    (hm : d.meals.find? (fun x => x.id == id) = some m) :
    (handleReceive d id).meals.find? (fun x => x.id == id)
      = some { m with status := some .at_lighthouse } ∧
    (m.status = some .at_lighthouse → handleReceive d id = d) := by
  have hid : m.id = id := find?_meal_id hm
  constructor
  · have h1 := find?_upsertList (p := mealStatusPatch id .at_lighthouse) (m := m)
      (by simpa [mealStatusPatch] using hm)
    rw [mergeMeal_statusPatch hid] at h1
    simpa [handleReceive, upsertMeal, mealStatusPatch] using h1
  · intro hst
    have hmerge : mergeMeal m (mealStatusPatch id Status.at_lighthouse) = m := by
      rw [mergeMeal_statusPatch hid, ← hst]
    have h2 : upsertList d.meals (mealStatusPatch id Status.at_lighthouse) = d.meals :=
      upsertList_eq_self (by simpa [mealStatusPatch] using hm) hmerge
    cases d
    simp [handleReceive, upsertMeal, h2]

theorem receive_spec_witness :
    (handleReceive db1 "m1").meals.find? (fun x => x.id == "m1")
      = some { meal0 with status := some .at_lighthouse } ∧
    (meal0.status = some .at_lighthouse → handleReceive db1 "m1" = db1) :=
  receive_spec db1 "m1" meal0 (by rfl)

theorem find?_ctr_bridge {l : List Contributor} {o : Option String} {c : Contributor}
    (h : l.find? (fun x => some x.id == o) = some c) :
    o = some c.id ∧ l.find? (fun x => x.id == c.id) = some c := by
  induction l with
  | nil => simp [List.find?] at h
  | cons x rest ih =>
      by_cases hx : (some x.id == o) = true
      · simp only [List.find?_cons, hx] at h
        have hxc : x = c := Option.some.inj h
        have ho : o = some c.id := by
          rw [← hxc]
          exact (eq_of_beq hx).symm
        refine ⟨ho, ?_⟩
        rw [← hxc]
        exact List.find?_cons_of_pos _ (by simp)
      · simp only [Bool.not_eq_true] at hx
        simp only [List.find?_cons, hx] at h
        obtain ⟨ho, hf⟩ := ih h
        refine ⟨ho, ?_⟩
        have hxid : (x.id == c.id) = false := by
          rcases Bool.eq_false_or_eq_true (x.id == c.id) with hh | hh
          · exfalso
            have hxe : x.id = c.id := by simpa using hh
            rw [hxe, ho] at hx
            simp at hx
          · exact hh
        simp only [List.find?_cons, hxid]
        exact hf

theorem patchContributor_id (c : Contributor) (p : CtrPatch) :
    (patchContributor c p).id = p.id.getD c.id := rfl

theorem patchContributor_id_of_none {c : Contributor} {p : CtrPatch} (h : p.id = none) :
    (patchContributor c p).id = c.id := by
  rw [patchContributor_id, h]
  rfl

theorem find?_map_patch {l : List Contributor} {cid : String} {c : Contributor} (p : CtrPatch)
    (hpid : p.id = none)
    (h : l.find? (fun x => x.id == cid) = some c) :
    (l.map (fun x => if x.id = cid then patchContributor x p else x)).find?
        (fun x => x.id == cid) = some (patchContributor c p) := by
  induction l with
  | nil => simp [List.find?] at h
  | cons x rest ih =>
      by_cases hx : x.id = cid
      · rw [List.find?_cons_of_pos _ (by simp [hx])] at h
        obtain rfl : x = c := Option.some.inj h
        rw [List.map_cons, if_pos hx]
        exact List.find?_cons_of_pos _ (by simp [patchContributor_id_of_none hpid, hx])
      · rw [List.find?_cons_of_neg _ (by simp [hx])] at h
        rw [List.map_cons, if_neg hx, List.find?_cons_of_neg _ (by simp [hx])]
        exact ih h

theorem find?_self_mem (l : List Nat) (n : Nat) :
    l.find? (fun x => n == x) = if n ∈ l then some n else none := by
  induction l with
  | nil => simp
  | cons a t ih =>
      by_cases ha : n = a
      · subst ha
        rw [List.find?_cons_of_pos _ (by simp)]
        simp
      · rw [List.find?_cons_of_neg _ (by simp [ha]), ih]
        simp [List.mem_cons, ha]

theorem upsertMeal_contributors (d : DB) (m : Meal) :
    (upsertMeal d m).contributors = d.contributors := rfl

theorem upsertMeal_notifications (d : DB) (m : Meal) :
    (upsertMeal d m).notifications = d.notifications := rfl

theorem updateContributor_notifications (d : DB) (id : String) (p : CtrPatch) :
    (updateContributor d id p).notifications = d.notifications := rfl

theorem updateContributor_contributors (d : DB) (id : String) (p : CtrPatch) :
    (updateContributor d id p).contributors =
      d.contributors.map (fun c => if c.id = id then patchContributor c p else c) := rfl

theorem addNotification_contributors (d : DB) (n : Notification) :
    (addNotification d n).contributors = d.contributors := rfl

theorem addNotification_log (d : DB) (n : Notification) :
    (addNotification d n).notifications = (n :: d.notifications).take 100 := rfl

theorem mergeMeal_distributePatch {m : Meal} {id recip now : String}
    (hid : m.id = id) :
    mergeMeal m (distributePatch id recip now) =
      { m with
          status := some .distributed
          recipientName := some (if recip = "" then recipientPlaceholder else recip)
          distributedAt := some now } := by
  cases m
  simp_all [mergeMeal, distributePatch, Option.orElse]

/-- The full effect of a `handleDistribute` call that finds both the meal
and its contributor: the (first) contributor with that id is re-read with
10 more points and one more meal contributed, and the notification log
gains the thank-you entry plus, exactly when the new meal count is a
milestone, the milestone entry — then is truncated to the 100 most
recent entries. -/
theorem distribute_effects (d : DB) (id recip now n1 n2 : String)
    (m : Meal) (c : Contributor)
    (hm : d.meals.find? (fun x => x.id == id) = some m)
    (hc : d.contributors.find? (fun x => some x.id == m.contributorId) = some c) :
    (handleDistribute d id recip now n1 n2).contributors.find? (fun x => x.id == c.id)
      = some { c with points := c.points + 10, mealsContributed := c.mealsContributed + 1 } ∧
    (handleDistribute d id recip now n1 n2).notifications =
      ((if c.mealsContributed + 1 ∈ MILESTONES
        then ([⟨n2, now, c.id, milestoneMsg (c.mealsContributed + 1)⟩,
               ⟨n1, now, c.id, thanksMsg id⟩] : List Notification)
        else ([⟨n1, now, c.id, thanksMsg id⟩] : List Notification))
        ++ d.notifications).take 100 := by
  obtain ⟨ho, hfc⟩ := find?_ctr_bridge hc
  have hfind := find?_self_mem MILESTONES (c.mealsContributed + 1)
  have hpatched := find?_map_patch
    (scorePatch (c.points + 10) (c.mealsContributed + 1)) rfl hfc
  by_cases hmem : c.mealsContributed + 1 ∈ MILESTONES
  · rw [if_pos hmem] at hfind
    have heq : handleDistribute d id recip now n1 n2
        = addNotification
            (addNotification
              (updateContributor (upsertMeal d (distributePatch id recip now)) c.id
                (scorePatch (c.points + 10) (c.mealsContributed + 1)))
              ⟨n1, now, c.id, thanksMsg id⟩)
            ⟨n2, now, c.id, milestoneMsg (c.mealsContributed + 1)⟩ := by
      simp only [handleDistribute, hm, hc, hfind]
    constructor
    · rw [heq, addNotification_contributors, addNotification_contributors,
          updateContributor_contributors, upsertMeal_contributors]
      exact hpatched
    · rw [heq, addNotification_log, addNotification_log,
          updateContributor_notifications, upsertMeal_notifications,
          take_hundred_collapse, if_pos hmem]
      rfl
  · rw [if_neg hmem] at hfind
    have heq : handleDistribute d id recip now n1 n2
        = addNotification
            (updateContributor (upsertMeal d (distributePatch id recip now)) c.id
              (scorePatch (c.points + 10) (c.mealsContributed + 1)))
            ⟨n1, now, c.id, thanksMsg id⟩ := by
      simp only [handleDistribute, hm, hc, hfind]
    constructor
    · rw [heq, addNotification_contributors,
          updateContributor_contributors, upsertMeal_contributors]
      exact hpatched
    · rw [heq, addNotification_log,
          updateContributor_notifications, upsertMeal_notifications, if_neg hmem]
      rfl

/-- C2: on a distribution whose meal and owning contributor both resolve,
the contributor's points grow by exactly 10 and `mealsContributed` by
exactly 1; one thank-you notification is always added, and one milestone
notification is added in addition precisely when the new `mealsContributed`
count equals one of the thresholds 1, 5, 10, 25, 50. -/
theorem distribute_scoring_spec (d : DB) (id recip now n1 n2 : String)
    (m : Meal) (c : Contributor)
    (hm : d.meals.find? (fun x => x.id == id) = some m)
    (hc : d.contributors.find? (fun x => some x.id == m.contributorId) = some c) :
    (handleDistribute d id recip now n1 n2).contributors.find? (fun x => x.id == c.id)
      = some { c with points := c.points + 10, mealsContributed := c.mealsContributed + 1 } ∧
    (handleDistribute d id recip now n1 n2).notifications =
      ((if c.mealsContributed + 1 ∈ MILESTONES
        then ([⟨n2, now, c.id, milestoneMsg (c.mealsContributed + 1)⟩,
               ⟨n1, now, c.id, thanksMsg id⟩] : List Notification)
        else ([⟨n1, now, c.id, thanksMsg id⟩] : List Notification))
        ++ d.notifications).take 100 :=
  distribute_effects d id recip now n1 n2 m c hm hc

theorem distribute_scoring_spec_witness :
    (handleDistribute db1 "m1" "Jane" "t1" "na" "nb").contributors.find?
        (fun x => x.id == ctr0.id)
      = some { ctr0 with points := ctr0.points + 10, mealsContributed := ctr0.mealsContributed + 1 } ∧
    (handleDistribute db1 "m1" "Jane" "t1" "na" "nb").notifications =
      ((if ctr0.mealsContributed + 1 ∈ MILESTONES
        then ([⟨"nb", "t1", ctr0.id, milestoneMsg (ctr0.mealsContributed + 1)⟩,
               ⟨"na", "t1", ctr0.id, thanksMsg "m1"⟩] : List Notification)
        else ([⟨"na", "t1", ctr0.id, thanksMsg "m1"⟩] : List Notification))
        ++ db1.notifications).take 100 :=
  distribute_scoring_spec db1 "m1" "Jane" "t1" "na" "nb" meal0 ctr0 (by rfl) (by rfl)

/-- Counterexample to C1 as stated: distributing the same meal twice does
not fail on the second call — after the first call the contributor holds
10 points / 1 meal, and after the second call 20 points / 2 meals, so the
second call changed both counters (double-crediting). -/
theorem distribute_twice_double_credits :
    db1d.contributors.find? (fun x => x.id == "c1")
      = some ⟨"c1", "Alice", none, none, none, none, none, "t0", 10, 1⟩ ∧
    db1dd.contributors.find? (fun x => x.id == "c1")
      = some ⟨"c1", "Alice", none, none, none, none, none, "t0", 20, 2⟩ := by
  exact ⟨rfl, rfl⟩

/-- C1 (amended): `distribute` carries no `AlreadyDistributed` guard: a
call on a meal whose status is already `distributed` (such as a second call
on the same id) succeeds again and increments the owning contributor's
points by a further 10 and `mealsContributed` by a further 1 rather than
leaving them unchanged. -/
theorem distribute_again_increments (d : DB) (id recip now n1 n2 : String)
    (m : Meal) (c : Contributor)
    (hm : d.meals.find? (fun x => x.id == id) = some m)
    (_hst : m.status = some .distributed)
    (hc : d.contributors.find? (fun x => some x.id == m.contributorId) = some c) :
    (handleDistribute d id recip now n1 n2).contributors.find? (fun x => x.id == c.id)
      = some { c with points := c.points + 10, mealsContributed := c.mealsContributed + 1 } :=
  (distribute_effects d id recip now n1 n2 m c hm hc).1

theorem distribute_again_increments_witness :
    (handleDistribute dbDist "m1" "Jo" "t2" "nc" "nd").contributors.find?
        (fun x => x.id == ctr0.id)
      = some { ctr0 with points := ctr0.points + 10, mealsContributed := ctr0.mealsContributed + 1 } :=
  distribute_again_increments dbDist "m1" "Jo" "t2" "nc" "nd"
    { meal0 with
        status := some .distributed
        distributedAt := some "t1"
        recipientName := some "Jane" }
    ctr0 (by rfl) (by rfl) (by rfl)

/-- C10: when the meal exists but its `contributorId` matches no
contributor, `distribute` still updates the meal — status `distributed`,
`distributedAt` stamped, recipient name recorded — while the contributors
collection, the notification log and the lighthouse list are left entirely
unchanged: scoring and notifications are silently skipped. -/
theorem distribute_skips_missing_contributor (d : DB) (id recip now n1 n2 : String)
    (m : Meal)
    (hm : d.meals.find? (fun x => x.id == id) = some m)
    (hc : d.contributors.find? (fun x => some x.id == m.contributorId) = none) :
    (handleDistribute d id recip now n1 n2).contributors = d.contributors ∧
    (handleDistribute d id recip now n1 n2).notifications = d.notifications ∧
    (handleDistribute d id recip now n1 n2).lighthouses = d.lighthouses ∧
    (handleDistribute d id recip now n1 n2).meals.find? (fun x => x.id == id)
      = some { m with
          status := some .distributed
          recipientName := some (if recip = "" then recipientPlaceholder else recip)
          distributedAt := some now } := by
  have hid : m.id = id := find?_meal_id hm
  have h1 := find?_upsertList (p := distributePatch id recip now) (m := m)
    (by simpa [distributePatch] using hm)
  rw [mergeMeal_distributePatch hid] at h1
  have heq : handleDistribute d id recip now n1 n2
      = upsertMeal d (distributePatch id recip now) := by
    simp only [handleDistribute, hm, hc]
  refine ⟨?_, ?_, ?_, ?_⟩
  · rw [heq, upsertMeal_contributors]
  · rw [heq, upsertMeal_notifications]
  · rw [heq]
    rfl
  · rw [heq]
    simpa [upsertMeal, distributePatch] using h1

theorem distribute_skips_missing_contributor_witness :
    (handleDistribute (upsertMeal dbInit ghostMeal) "m9" "Jane" "t1" "na" "nb").contributors
      = (upsertMeal dbInit ghostMeal).contributors ∧
    (handleDistribute (upsertMeal dbInit ghostMeal) "m9" "Jane" "t1" "na" "nb").notifications
      = (upsertMeal dbInit ghostMeal).notifications ∧
    (handleDistribute (upsertMeal dbInit ghostMeal) "m9" "Jane" "t1" "na" "nb").lighthouses
      = (upsertMeal dbInit ghostMeal).lighthouses ∧
    (handleDistribute (upsertMeal dbInit ghostMeal) "m9" "Jane" "t1" "na" "nb").meals.find?
        (fun x => x.id == "m9")
      = some { ghostMeal with
          status := some .distributed
          recipientName := some (if "Jane" = "" then recipientPlaceholder else "Jane")
          distributedAt := some "t1" } :=
  distribute_skips_missing_contributor (upsertMeal dbInit ghostMeal)
    "m9" "Jane" "t1" "na" "nb" ghostMeal (by rfl) (by rfl)

theorem mem_upsertList {l : List Meal} {p x : Meal} (hx : x ∈ upsertList l p) :
    x ∈ l ∨ (∃ m0 ∈ l, m0.id = p.id ∧ x = mergeMeal m0 p) ∨
      (x = p ∧ ∀ m0 ∈ l, m0.id ≠ p.id) := by
  induction l with
  | nil =>
      simp [upsertList] at hx
      exact Or.inr (Or.inr ⟨hx, by simp⟩)
  | cons m rest ih =>
      by_cases hm : m.id = p.id
      · simp only [upsertList, if_pos hm] at hx
        rcases List.mem_cons.mp hx with h1 | h1
        · exact Or.inr (Or.inl ⟨m, by simp, hm, h1⟩)
        · exact Or.inl (by simp [h1])
      · simp only [upsertList, if_neg hm] at hx
        rcases List.mem_cons.mp hx with h1 | h1
        · exact Or.inl (by simp [h1])
        · rcases ih h1 with h2 | h2 | h2
          · exact Or.inl (by simp [h2])
          · obtain ⟨m0, hmem, hid, hx2⟩ := h2
            exact Or.inr (Or.inl ⟨m0, by simp [hmem], hid, hx2⟩)
          · obtain ⟨hx2, hall⟩ := h2
            refine Or.inr (Or.inr ⟨hx2, ?_⟩)
            intro m0 hm0
            rcases List.mem_cons.mp hm0 with h3 | h3
            · rw [h3]
              exact hm
            · exact hall m0 h3

theorem refOK_upsert {d : DB} {p : Meal} (hd : refOK d)
    (hc : ∀ cid, p.contributorId = some cid → ∃ c ∈ d.contributors, c.id = cid)
    (hl : ∀ lid, p.lighthouseId = some lid → ∃ lh ∈ d.lighthouses, lh.id = lid)
    (hins : (∀ m0 ∈ d.meals, m0.id ≠ p.id) →
      p.contributorId.isSome ∧ p.lighthouseId.isSome) :
    refOK (upsertMeal d p) := by
  intro m hm
  rcases mem_upsertList hm with h1 | h1 | h1
  · exact hd m h1
  · obtain ⟨m0, hm0, hid, rfl⟩ := h1
    obtain ⟨⟨c0, hc0, he0⟩, ⟨l0, hl0, hel0⟩⟩ := hd m0 hm0
    constructor
    · cases hp : p.contributorId with
      | none =>
          refine ⟨c0, hc0, ?_⟩
          simp [mergeMeal, hp, Option.orElse, he0]
      | some cid =>
          obtain ⟨c1, hc1, he1⟩ := hc cid hp
          refine ⟨c1, hc1, ?_⟩
          simp [mergeMeal, hp, Option.orElse, he1]
    · cases hp : p.lighthouseId with
      | none =>
          refine ⟨l0, hl0, ?_⟩
          simp [mergeMeal, hp, Option.orElse, hel0]
      | some lid =>
          obtain ⟨l1, hl1, hel1⟩ := hl lid hp
          refine ⟨l1, hl1, ?_⟩
          simp [mergeMeal, hp, Option.orElse, hel1]
  · obtain ⟨rfl, hall⟩ := h1
    obtain ⟨hcs, hls⟩ := hins hall
    obtain ⟨cid, hp⟩ := Option.isSome_iff_exists.mp hcs
    obtain ⟨lid, hpl⟩ := Option.isSome_iff_exists.mp hls
    obtain ⟨c1, hc1, he1⟩ := hc cid hp
    obtain ⟨l1, hl1, hel1⟩ := hl lid hpl
    exact ⟨⟨c1, hc1, by rw [hp, he1]⟩, ⟨l1, hl1, by rw [hpl, hel1]⟩⟩

theorem refOK_updateContributor {d : DB} (hd : refOK d) (id : String) (p : CtrPatch)
    (hid : p.id = none) :
    refOK (updateContributor d id p) := by
  intro m hm
  obtain ⟨⟨c0, hc0, he0⟩, hlh⟩ := hd m hm
  refine ⟨⟨(if c0.id = id then patchContributor c0 p else c0), ?_, ?_⟩, hlh⟩
  · exact List.mem_map_of_mem _ hc0
  · have hsame : (if c0.id = id then patchContributor c0 p else c0).id = c0.id := by
      by_cases h : c0.id = id <;> simp [h, patchContributor_id_of_none hid]
    rw [hsame]
    exact he0

theorem refOK_dbInit : refOK dbInit := by
  intro m hm
  simp [dbInit] at hm

/-- Counterexample to C3 as stated: a reachable state violating the
referential invariant — starting from the initial snapshot, `upsertMeal`
inserts a meal whose `contributorId` ("ghost") matches no contributor. -/
theorem reachable_refOK_violation :
    Reachable (upsertMeal dbInit ghostMeal) ∧ ¬ refOK (upsertMeal dbInit ghostMeal) :=
  ⟨Reachable.step Reachable.init (Step.upsertMeal dbInit ghostMeal), by decide⟩

/-- C3 (amended): the store performs no referential checks, so the
invariant is not maintained across arbitrary mutator calls; it is preserved
by a mutator step only under side conditions: `upsertMeal` must be given
references that resolve in the current state (and both references on an
insert), `receive` must target an existing meal id, and
`updateContributor`'s patch must not carry an id (the spread-merge would
otherwise rename the contributor out from under its meals).  The remaining
mutators — reset, addContributor, addNotification, distribute — need no
side condition. -/
theorem refOK_preserved_of_guarded {d d' : DB} (hd : refOK d) (hs : GStep d d') :
    refOK d' := by
  cases hs with
  | reset => exact refOK_dbInit
  | addContributor c =>
      intro m hm
      obtain ⟨⟨c0, hc0, he0⟩, hlh⟩ := hd m hm
      exact ⟨⟨c0, List.mem_append_left _ hc0, he0⟩, hlh⟩
  | updateContributor id p hid => exact refOK_updateContributor hd id p hid
  | upsertMeal p hc hl hins => exact refOK_upsert hd hc hl hins
  | receive id h =>
      apply refOK_upsert hd
      · intro cid hcid
        simp [mealStatusPatch] at hcid
      · intro lid hlid
        simp [mealStatusPatch] at hlid
      · intro hall
        exfalso
        obtain ⟨m0, hm0, hid⟩ := h
        exact hall m0 hm0 (by simpa [mealStatusPatch] using hid)
  | distribute id recip now n1 n2 =>
      cases hfm : d.meals.find? (fun x => x.id == id) with
      | none =>
          have heq : handleDistribute d id recip now n1 n2 = d := by
            simp only [handleDistribute, hfm]
          rw [heq]
          exact hd
      | some meal =>
          have hup : refOK (upsertMeal d (distributePatch id recip now)) := by
            apply refOK_upsert hd
            · intro cid hcid
              simp [distributePatch] at hcid
            · intro lid hlid
              simp [distributePatch] at hlid
            · intro hall
              exfalso
              have hmem := List.mem_of_find?_eq_some hfm
              have hidm : meal.id = id := find?_meal_id hfm
              exact hall meal hmem (by simpa [distributePatch] using hidm)
          cases hfc : d.contributors.find? (fun c => some c.id == meal.contributorId) with
          | none =>
              have heq : handleDistribute d id recip now n1 n2
                  = upsertMeal d (distributePatch id recip now) := by
                simp only [handleDistribute, hfm, hfc]
              rw [heq]
              exact hup
          | some ctr =>
              have hupd : refOK (updateContributor
                  (upsertMeal d (distributePatch id recip now)) ctr.id
                  (scorePatch (ctr.points + 10) (ctr.mealsContributed + 1))) :=
                refOK_updateContributor hup ctr.id _ rfl
              cases hms : MILESTONES.find? (fun x => ctr.mealsContributed + 1 == x) with
              | none =>
                  have heq : handleDistribute d id recip now n1 n2
                      = addNotification
                          (updateContributor (upsertMeal d (distributePatch id recip now))
                            ctr.id (scorePatch (ctr.points + 10) (ctr.mealsContributed + 1)))
                          ⟨n1, now, ctr.id, thanksMsg id⟩ := by
                    simp only [handleDistribute, hfm, hfc, hms]
                  rw [heq]
                  exact hupd
              | some ms =>
                  have heq : handleDistribute d id recip now n1 n2
                      = addNotification
                          (addNotification
                            (updateContributor (upsertMeal d (distributePatch id recip now))
                              ctr.id (scorePatch (ctr.points + 10) (ctr.mealsContributed + 1)))
                            ⟨n1, now, ctr.id, thanksMsg id⟩)
                          ⟨n2, now, ctr.id, milestoneMsg ms⟩ := by
                    simp only [handleDistribute, hfm, hfc, hms]
                  rw [heq]
                  exact hupd
  | addNotification n => exact hd

theorem refOK_preserved_of_guarded_witness : refOK (addContributor dbInit ctr0) :=
  @refOK_preserved_of_guarded dbInit (addContributor dbInit ctr0)
    (by decide) (GStep.addContributor dbInit ctr0)

theorem toDigitsRev_lt (n : Nat) : ∀ d ∈ toDigitsRev n, d < 10 := by
  induction n using Nat.strong_induction_on with
  | _ n ih =>
      rw [toDigitsRev]
      by_cases h : n < 10
      · simp [h]
      · simp only [if_neg h]
        intro d hd
        rcases List.mem_cons.mp hd with h1 | h1
        · rw [h1]
          exact Nat.mod_lt _ (by omega)
        · exact ih (n / 10) (Nat.div_lt_self (by omega) (by omega)) d h1

theorem decodeRev_toDigitsRev (n : Nat) : decodeRevDigits (toDigitsRev n) = n := by
  induction n using Nat.strong_induction_on with
  | _ n ih =>
      rw [toDigitsRev]
      by_cases h : n < 10
      · simp [h, decodeRevDigits]
      · simp only [if_neg h, decodeRevDigits]
        rw [ih (n / 10) (Nat.div_lt_self (by omega) (by omega))]
        omega

theorem foldl_digits_reverse (l : List Nat) :
    l.reverse.foldl (fun a d => a * 10 + d) 0 = decodeRevDigits l := by
  induction l with
  | nil => simp [decodeRevDigits]
  | cons d t ih =>
      simp only [List.reverse_cons, List.foldl_append, ih, List.foldl_cons,
        List.foldl_nil, decodeRevDigits]
      omega

theorem decodeDigits_map_aux :
    ∀ (l : List Nat) (a : Nat), (∀ d ∈ l, d < 10) →
      (l.map digitChar).foldl (fun a c => a * 10 + (c.toNat - 48)) a
        = l.foldl (fun a d => a * 10 + d) a := by
  intro l
  induction l with
  | nil =>
      intro a h
      simp
  | cons d t ih =>
      intro a h
      simp only [List.map_cons, List.foldl_cons]
      have hdlt : d < 10 := h d (by simp)
      have hd : (digitChar d).toNat - 48 = d := by
        interval_cases d <;> rfl
      rw [hd]
      exact ih _ (fun x hx => h x (by simp [hx]))

theorem decodeDigits_natRepr (n : Nat) : decodeDigits (natRepr n).data = n := by
  have hlt : ∀ d ∈ (toDigitsRev n).reverse, d < 10 := fun d hd =>
    toDigitsRev_lt n d (List.mem_reverse.mp hd)
  calc decodeDigits (natRepr n).data
      = ((toDigitsRev n).reverse.map digitChar).foldl
          (fun a c => a * 10 + (c.toNat - 48)) 0 := rfl
    _ = (toDigitsRev n).reverse.foldl (fun a d => a * 10 + d) 0 :=
        decodeDigits_map_aux _ 0 hlt
    _ = decodeRevDigits (toDigitsRev n) := foldl_digits_reverse _
    _ = n := decodeRev_toDigitsRev n

theorem foldl_replicate_zero :
    ∀ k, List.foldl (fun a c => a * 10 + (c.toNat - 48)) 0 (List.replicate k '0') = 0 := by
  intro k
  induction k with
  | zero => rfl
  | succ k ih => simpa [List.replicate_succ, List.foldl_cons] using ih

theorem decodeDigits_pad (s : String) :
    decodeDigits (padStart2 s).data = decodeDigits s.data := by
  unfold padStart2
  by_cases h : s.length < 2
  · simp only [if_pos h]
    rw [show (String.mk (List.replicate (2 - s.length) '0') ++ s).data
        = List.replicate (2 - s.length) '0' ++ s.data from String.data_append _ _]
    rw [decodeDigits, List.foldl_append, foldl_replicate_zero]
    rfl
  · simp [if_neg h]

theorem bulkId_inj (t : String) {i j : Nat}
    (h : t ++ "-" ++ padStart2 (natRepr (i + 1)) = t ++ "-" ++ padStart2 (natRepr (j + 1))) :
    i = j := by
  have hdat := congrArg String.data h
  rw [String.data_append, String.data_append, String.data_append, String.data_append]
    at hdat
  rw [List.append_assoc, List.append_assoc] at hdat
  have h2 := List.append_cancel_left hdat
  have h3 := List.append_cancel_left h2
  have h4 := congrArg decodeDigits h3
  have hpi : decodeDigits (padStart2 (natRepr (i + 1))).data = i + 1 := by
    rw [decodeDigits_pad, decodeDigits_natRepr]
  have hpj : decodeDigits (padStart2 (natRepr (j + 1))).data = j + 1 := by
    rw [decodeDigits_pad, decodeDigits_natRepr]
  rw [hpi, hpj] at h4
  omega

/-- Counterexample to C7 as stated: with base " A " (which trims to "A")
and quantity 1, the generator returns the trimmed base, not the given base
unmodified. -/
theorem generateBulkIds_trims_base :
    generateBulkIds " A " 1 = ["A"] ∧ "A" ≠ " A " := by
  exact ⟨rfl, by decide⟩

/-- C7 (amended): for quantity `q ≥ 1`, `generateBulkIds b q` returns the
empty sequence when `b` trims to empty, and otherwise a sequence of length
`q` of pairwise distinct elements whose `i`-th element (0-indexed) is the
trimmed base itself when `q = 1` and otherwise the trimmed base followed by
"-" and the 1-based index zero-padded to at least two digits. -/
theorem generateBulkIds_spec (b : String) (q : Int) (hq : 1 ≤ q) :
    (trimString b = "" → generateBulkIds b q = []) ∧
    (trimString b ≠ "" →
      (generateBulkIds b q).length = q.toNat ∧
      (generateBulkIds b q).Nodup ∧
      ∀ i (h : i < (generateBulkIds b q).length),
        (generateBulkIds b q).get ⟨i, h⟩ =
          if q = 1 then trimString b
          else trimString b ++ "-" ++ padStart2 (natRepr (i + 1))) := by
  constructor
  · intro h
    simp [generateBulkIds, h]
  · intro h
    have hmax : max 1 q = q := max_eq_right hq
    by_cases h1 : q = 1
    · subst h1
      refine ⟨by simp [generateBulkIds, h], by simp [generateBulkIds, h], ?_⟩
      intro i hi
      have hi1 : i = 0 := by
        simp [generateBulkIds, h] at hi
        omega
      subst hi1
      simp [generateBulkIds, h]
    · have hq2 : (max 1 q).toNat ≠ 1 := by
        rw [hmax]
        omega
      have hulen : (generateBulkIds b q).length = (max 1 q).toNat := by
        simp [generateBulkIds, h, hq2]
      refine ⟨by rw [hulen, hmax], ?_, ?_⟩
      · simp only [generateBulkIds, h, if_neg h, hq2, if_neg hq2, ite_false]
        apply List.Nodup.map
        · intro i j hij
          exact bulkId_inj (trimString b) hij
        · exact List.nodup_range _
      · intro i hi
        have hget : (generateBulkIds b q).get ⟨i, hi⟩
            = trimString b ++ "-" ++ padStart2 (natRepr (i + 1)) := by
          simp [generateBulkIds, h, hq2]
        rw [hget, if_neg h1]

theorem generateBulkIds_spec_witness :
    (generateBulkIds "ABC" 3).length = (3 : Int).toNat ∧ (generateBulkIds "ABC" 3).Nodup :=
  ⟨((generateBulkIds_spec "ABC" 3 (by decide)).2 (by decide)).1,
   ((generateBulkIds_spec "ABC" 3 (by decide)).2 (by decide)).2.1⟩

theorem distKey_inj : Function.Injective distKey := by
  intro a b h
  cases a with
  | none =>
      cases b with
      | none => rfl
      | some y => simp [distKey] at h
  | some x =>
      cases b with
      | none => simp [distKey] at h
      | some y =>
          simp only [distKey, WithTop.coe_eq_coe] at h
          rw [h]

theorem filter_key_orderedInsert (k : Option ℚ) (b : RankedLighthouse)
    (s : List RankedLighthouse) :
    (s.orderedInsert leByDist b).filter (fun a => a.dist == k)
      = (b :: s).filter (fun a => a.dist == k) := by
  induction s with
  | nil => simp [List.orderedInsert]
  | cons x xs ih =>
      by_cases hbx : leByDist b x
      · simp [List.orderedInsert, hbx]
      · have hlt : distKey x.dist < distKey b.dist := not_le.mp hbx
        simp only [List.orderedInsert, if_neg hbx]
        by_cases hpx : (x.dist == k) = true
        · have hxk : x.dist = k := by simpa using hpx
          have hpb : (b.dist == k) = false := by
            rcases Bool.eq_false_or_eq_true (b.dist == k) with hh | hh
            · exfalso
              have hbk : b.dist = k := by simpa using hh
              rw [hxk, ← hbk] at hlt
              exact lt_irrefl _ hlt
            · exact hh
          simp [List.filter_cons, hpx, hpb, ih]
        · have hpxf : (x.dist == k) = false := by
          { rcases Bool.eq_false_or_eq_true (x.dist == k) with hh | hh
            · exact absurd hh hpx
            · exact hh }
          simp [List.filter_cons, hpxf, ih]

theorem filter_key_insertionSort (k : Option ℚ) (l : List RankedLighthouse) :
    (l.insertionSort leByDist).filter (fun a => a.dist == k)
      = l.filter (fun a => a.dist == k) := by
  induction l with
  | nil => rfl
  | cons b t ih =>
      show ((List.insertionSort leByDist t).orderedInsert leByDist b).filter
          (fun a => a.dist == k) = _
      rw [filter_key_orderedInsert, List.filter_cons, List.filter_cons, ih]

theorem insertionSort_all_le {l : List RankedLighthouse}
    (h : ∀ a ∈ l, ∀ b ∈ l, leByDist a b) : l.insertionSort leByDist = l := by
  induction l with
  | nil => rfl
  | cons x t ih =>
      have ht : t.insertionSort leByDist = t :=
        ih (fun a ha b hb => h a (by simp [ha]) b (by simp [hb]))
      show (t.insertionSort leByDist).orderedInsert leByDist x = x :: t
      rw [ht]
      cases t with
      | nil => rfl
      | cons y t2 =>
          have hxy : leByDist x y := h x (by simp) y (by simp)
          simp [List.orderedInsert, hxy]

/-- C8: when the user coordinate is absent, ranking returns the
lighthouses in their input order with no distance attached; when it is
present, the result is a permutation of the enriched list that is sorted
ascending by the computed distance, every element carries exactly the
distance from the origin to that lighthouse's coordinate, and any two
lighthouses at equal computed distance keep their relative input order
(the elements at any fixed distance appear exactly as they do in the
input).  The floating-point `haversineKm` is abstracted as the distance
parameter. -/
theorem rank_spec (dist : Coord → Coord → ℚ) (lhs : List Lighthouse) :
    rankLighthouses dist lhs none = lhs.map (fun lh => ⟨lh, none⟩) ∧
    ∀ o : Coord,
      (rankLighthouses dist lhs (some o)).Perm (enrich dist lhs (some o)) ∧
      List.Sorted leByDist (rankLighthouses dist lhs (some o)) ∧
      (∀ a ∈ rankLighthouses dist lhs (some o),
        a.dist = some (dist o ⟨a.lh.lat, a.lh.lng⟩)) ∧
      ∀ k : Option ℚ,
        (rankLighthouses dist lhs (some o)).filter (fun a => a.dist == k)
          = (enrich dist lhs (some o)).filter (fun a => a.dist == k) := by
  constructor
  · have hall : ∀ a ∈ enrich dist lhs none, ∀ b ∈ enrich dist lhs none, leByDist a b := by
      intro a ha b hb
      have hda : a.dist = none := by
        simp only [enrich, List.mem_map] at ha
        obtain ⟨lh, _, rfl⟩ := ha
        rfl
      have hdb : b.dist = none := by
        simp only [enrich, List.mem_map] at hb
        obtain ⟨lh, _, rfl⟩ := hb
        rfl
      simp [leByDist, hda, hdb, distKey]
    calc rankLighthouses dist lhs none = enrich dist lhs none := insertionSort_all_le hall
      _ = lhs.map (fun lh => ⟨lh, none⟩) := rfl
  · intro o
    refine ⟨List.perm_insertionSort leByDist _, List.sorted_insertionSort leByDist _,
      ?_, fun k => filter_key_insertionSort k _⟩
    intro a ha
    have ha2 : a ∈ enrich dist lhs (some o) := (List.mem_insertionSort leByDist).mp ha
    simp only [enrich, List.mem_map] at ha2
    obtain ⟨lh, _, rfl⟩ := ha2
    rfl
